import Mathlib

/-
Verification development for the forced-migration agent-based model
(run_abm_no_social_updates.py).  The simulation state is shallowly
embedded: graph nodes are natural numbers (the test configuration of the
source builds the graph over integer node ids), Python floats are
modelled as rationals, the global pseudo-random stream of random.random()
is an explicit function from draw positions to rationals together with a
cursor, and random.randint(0, n-1) is a function from draw positions to
naturals reduced mod n together with a cursor.  Fallible code (max() of
an empty sequence, division by zero, attribute and key errors) is
modelled with Except, and the unbounded retry loop of the social-link
builder is modelled with explicit fuel.
-/

namespace Mig

/-- Configuration constants of the source (the config dictionary).
Only the simulation-relevant fields are modelled; num_kin and
num_friends are the integer (defined-count) mode of the source. -/
structure Config where
  num_kin : Nat
  num_friends : Nat
  percent_move_at_camp : ℚ
  percent_move_at_conflict : ℚ
  percent_move_other : ℚ
  population_weight : ℚ
  location_weight : ℚ
  camp_weight : ℚ
  conflict_weight : ℚ
  kin_weight : ℚ
  friend_weight : ℚ
  seed_refs : Nat
  seed_nodes : List Nat

/-- The literal values of the source config dictionary (seed_nodes is a
list of district names in the source; it is irrelevant while seed_refs
is 0 and is therefore left empty here). -/
def defaultConfig : Config where
  num_kin := 1
  num_friends := 1
  percent_move_at_camp := 3/10
  percent_move_at_conflict := 1
  percent_move_other := 7/10
  population_weight := 1/4
  location_weight := 1/4
  camp_weight := 1/4
  conflict_weight := 1/4
  kin_weight := 1/4
  friend_weight := 1/4
  seed_refs := 0
  seed_nodes := []

/-- A single refugee agent (class Ref).  kin_list and friend_list are
Python dicts whose values are always 1; only the ordered key sets
matter, so they are modelled as duplicate-free lists of agent indices
in insertion order. -/
structure Ref where
  node : Nat
  kin_list : List Nat
  friend_list : List Nat
deriving DecidableEq

/-- Default agent used for out-of-range list reads (in the source every
index read is in range). -/
def dRef : Ref := ⟨0, [], []⟩

/-- The location graph together with its mutable per-node attributes.
nodes lists the node ids in insertion order, adj gives the neighbor
list of a node in iteration order.  The derived attributes are Option
valued: none models the attribute being absent from the node attribute
dictionary (build_graph sets only weight, num_conflicts, num_camps and
location_score). -/
structure GraphState where
  nodes : List Nat
  adj : Nat → List Nat
  weight : Nat → Int
  num_conflicts : Nat → Int
  num_camps : Nat → Int
  location_score : Nat → ℚ
  norm_weight : Nat → Option ℚ
  norm_camps : Nat → Option ℚ
  norm_conflicts : Nat → Option ℚ
  node_score : Nat → Option ℚ

/-- Python max() over a nonempty integer list; the [] case is arbitrary
(the source raises ValueError there and every use below is guarded). -/
def pymax : List Int → Int
  | [] => 0
  | h :: t => t.foldl max h

/-- Adding a key to a Python dict used as a set: a no-op when the key is
present, otherwise appended at the end of the iteration order. -/
def dictAdd (l : List Nat) (k : Nat) : List Nat :=
  if k ∈ l then l else l ++ [k]

/-- norm_weight value of a node: weight divided by the population
maximum (the source applies no floor to this divisor). -/
def normWeightVal (g : GraphState) (n : Nat) : ℚ :=
  (g.weight n : ℚ) / (pymax (g.nodes.map g.weight) : ℚ)

/-- The camp-normalization divisor: max over the camp counts with 1
appended (the floor the source does apply for camps). -/
def maxCampsVal (g : GraphState) : Int :=
  pymax (g.nodes.map g.num_camps ++ [1])

/-- Normalized camp count of a node (computed in Sim.step as a local
list; never stored as a node attribute). -/
def normCampsVal (g : GraphState) (n : Nat) : ℚ :=
  (g.num_camps n : ℚ) / (maxCampsVal g : ℚ)

/-- The conflict-normalization divisor, floored by appending 1. -/
def maxConflictsVal (g : GraphState) : Int :=
  pymax (g.nodes.map g.num_conflicts ++ [1])

/-- Normalized conflict count of a node (a local intermediate in
Sim.step, never stored as a node attribute). -/
def normConflictsVal (g : GraphState) (n : Nat) : ℚ :=
  (g.num_conflicts n : ℚ) / (maxConflictsVal g : ℚ)

/-- node_score of a node, in the operand order of the source:
w*population_weight + x*location_weight + y*camp_weight +
z*(-1)*conflict_weight. -/
def nodeScoreVal (cfg : Config) (g : GraphState) (n : Nat) : ℚ :=
  normWeightVal g n * cfg.population_weight +
    g.location_score n * cfg.location_weight +
    normCampsVal g n * cfg.camp_weight +
    normConflictsVal g n * (-1) * cfg.conflict_weight

/-- Lines 241-268 of Sim.step: recompute norm_weight and node_score for
every node.  max(orig_weights.values()) raises ValueError on an empty
graph, and x / max_pop raises ZeroDivisionError when the population
maximum is zero (the source has no floor for this divisor, unlike the
camp and conflict divisors).  Only norm_weight and node_score are
written back as node attributes; the normalized camp and conflict lists
stay local. -/
def recompute_scores (cfg : Config) (g : GraphState) : Except String GraphState :=
  if g.nodes = [] then .error "ValueError: max arg is an empty sequence"
  else if pymax (g.nodes.map g.weight) = 0 then .error "ZeroDivisionError: division by zero"
  else .ok { g with
    norm_weight := fun n => if n ∈ g.nodes then some (normWeightVal g n) else g.norm_weight n,
    node_score := fun n => if n ∈ g.nodes then some (nodeScoreVal cfg g n) else g.node_score n }

/-- Reading the node_score attribute as a plain rational (inside a step
the attribute is set for every graph node before it is read). -/
def nodeScoreAttr (g : GraphState) : Nat → ℚ :=
  fun n => (g.node_score n).getD 0

/-- Desirability of node n for the agent with index r (the loop body of
find_new_node): kin at n times kin_weight plus friends at n times
friend_weight plus the node score. -/
def desirability (cfg : Config) (ns : Nat → ℚ) (allRefs : List Ref) (r : Nat) (n : Nat) : ℚ :=
  let kin_nodes := (allRefs.getD r dRef).kin_list.map fun kin => (allRefs.getD kin dRef).node
  let friend_nodes := (allRefs.getD r dRef).friend_list.map fun fr => (allRefs.getD fr dRef).node
  (kin_nodes.count n : ℚ) * cfg.kin_weight + (friend_nodes.count n : ℚ) * cfg.friend_weight + ns n

/-- The selection loop of find_new_node: the running best score starts
at -99 with no best neighbor, and a neighbor replaces the best only on
a strictly greater desirability. -/
def findLoop (des : Nat → ℚ) : List Nat → ℚ → Option Nat → Option Nat
  | [], _, best => best
  | n :: rest, bs, best =>
    if bs < des n then findLoop des rest (des n) (some n) else findLoop des rest bs best

/-- find_new_node: returns None for an isolate (empty neighbor list),
otherwise runs the selection loop over the neighbors of node. -/
def find_new_node (cfg : Config) (g : GraphState) (ns : Nat → ℚ) (allRefs : List Ref)
    (node : Nat) (r : Nat) : Option Nat :=
  let neighbors := g.adj node
  if neighbors = [] then none
  else findLoop (desirability cfg ns allRefs r) neighbors (-99) none

/-- Lines 143-151 of process_refs: the move decision for one agent at a
node with the given conflict and camp counts.  A positive conflict
count forces a move without consuming a pseudo-random draw; otherwise a
single draw is consumed and compared against the camp probability (camp
present) or the other probability.  The configured
percent_move_at_conflict is never consulted.  The returned natural
number is the stream cursor after the decision. -/
def decideMove (cfg : Config) (nc ncamps : Int) (s : Nat → ℚ) (k : Nat) : Bool × Nat :=
  if 0 < nc then (true, k)
  else if 0 < ncamps then (decide (s k < cfg.percent_move_at_camp), k + 1)
  else (decide (s k < cfg.percent_move_other), k + 1)

/-- The per-agent body of the process_refs loop: decide whether to move,
and on a move ask find_new_node for a destination.  The source guards
the relocation with the Python truthiness test "if new_node:", which is
false both for None and for the integer node id 0, so a chosen
destination 0 is silently dropped.  The source also accumulates signed
weight deltas into a local new_weights dict that is recreated on every
iteration and never returned; those dead values are not modelled. -/
def processOneRef (cfg : Config) (g : GraphState) (ns : Nat → ℚ) (allRefs : List Ref)
    (r : Nat) (s : Nat → ℚ) (k : Nat) : Ref × Nat :=
  let refObj := allRefs.getD r dRef
  let d := decideMove cfg (g.num_conflicts refObj.node) (g.num_camps refObj.node) s k
  if d.1 then
    match find_new_node cfg g ns allRefs refObj.node r with
    | some nn => if nn = 0 then (refObj, d.2) else ({ refObj with node := nn }, d.2)
    | none => (refObj, d.2)
  else (refObj, d.2)

/-- The for-loop of process_refs over a batch of agent indices,
threading the pseudo-random cursor and collecting the new agent records
in batch order. -/
def processLoop (cfg : Config) (g : GraphState) (ns : Nat → ℚ) (allRefs : List Ref) :
    List Nat → (Nat → ℚ) → Nat → List Ref × Nat
  | [], _, k => ([], k)
  | r :: rest, s, k =>
    let p := processOneRef cfg g ns allRefs r s k
    let q := processLoop cfg g ns allRefs rest s p.2
    (p.1 :: q.1, q.2)

/-- ref_nodes as initialized at the top of process_refs: every graph
node mapped to an empty list.  It is never written to afterwards. -/
def refNodesInit (_g : GraphState) : Nat → List Int :=
  fun _ => []

/-- process_refs: returns the new agent records of the batch and the
ref_nodes mapping.  The source returns ref_nodes - the untouched
empty-list dictionary - as its weight-update component; the signed
deltas it accumulated into the loop-local new_weights dicts are
discarded.  The final component is the stream cursor after the batch. -/
def process_refs (cfg : Config) (g : GraphState) (ns : Nat → ℚ) (allRefs : List Ref)
    (idxs : List Nat) (s : Nat → ℚ) (k : Nat) : List Ref × (Nat → List Int) × Nat :=
  let r := processLoop cfg g ns allRefs idxs s k
  (r.1, refNodesInit g, r.2)

/-- Sizes of the pieces np.array_split uses for a length-N sequence cut
into k parts: the first N mod k parts one element longer. -/
def splitSizes (N k : Nat) : List Nat :=
  (List.range k).map fun i => if i < N % k then N / k + 1 else N / k

/-- Cut a list into consecutive pieces of the given sizes. -/
def chunksBySizes : List Nat → List α → List (List α)
  | [], _ => []
  | sz :: rest, l => l.take sz :: chunksBySizes rest (l.drop sz)

/-- np.array_split of a list into k ordered contiguous pieces. -/
def npArraySplit (l : List α) (k : Nat) : List (List α) :=
  chunksBySizes (splitSizes l.length k) l

/-- A cell of the pandas DataFrame built in the merge phase: either an
integer weight (from orig_weights) or a list (from ref_nodes). -/
inductive Cell where
  | int (z : Int)
  | lst (l : List Int)

/-- Whether a DataFrame column holds only integers; pandas gives a
mixed column object dtype, which sum(numeric_only=True) excludes. -/
def colAllInt (rows : List (Nat → Cell)) (n : Nat) : Bool :=
  rows.all fun r => match r n with | .int _ => true | .lst _ => false

/-- Sum of the integer cells of a column (only consulted on all-integer
columns). -/
def colSum (rows : List (Nat → Cell)) (n : Nat) : Int :=
  rows.foldl (fun acc r => acc + match r n with | .int z => z | .lst _ => 0) 0

/-- The merge of Sim.step: build a DataFrame from orig_weights and the
per-batch ref_nodes rows, take sum(numeric_only=True) - the sums of the
all-integer columns in column order - and zip the node list against
that (possibly shorter) list of sums. -/
def pandasMerge (nodes : List Nat) (rows : List (Nat → Cell)) : List (Nat × Int) :=
  nodes.zip ((nodes.filter (colAllInt rows)).map (colSum rows))

/-- nx.set_node_attributes with a dict of weight updates. -/
def applyWeightUpdates (g : GraphState) (upd : List (Nat × Int)) : GraphState :=
  { g with weight := upd.foldl (fun w p => fun m => if m = p.1 then p.2 else w m) g.weight }

/-- Lines 270-283 of Sim.step: with more than one process the agent
index range is np.array_split into num_batches pieces and each piece is
handed to a pooled worker.  Each worker process is forked from the
parent and therefore inherits the very same pseudo-random state, so
every batch reads the stream from the same cursor k, and the draws made
in the workers never advance the parent cursor.  With one process the
whole range is processed in a single call that advances the cursor. -/
def runBatches (cfg : Config) (np nb : Nat) (g : GraphState) (refs : List Ref)
    (s : Nat → ℚ) (k : Nat) :
    Except String (List (List Ref × (Nat → List Int) × Nat) × Nat) :=
  if 1 < np then
    if nb = 0 then .error "ValueError: number sections must be larger than 0"
    else .ok ((npArraySplit (List.range refs.length) nb).map
      (fun c => process_refs cfg g (nodeScoreAttr g) refs c s k), k)
  else
    let r := process_refs cfg g (nodeScoreAttr g) refs (List.range refs.length) s k
    .ok ([r], r.2.2)

/-- The seeding loop body over seed_nodes: bump the weight of each seed
node (KeyError when the node is not in the graph) and append seed_refs
fresh agents located there. -/
def bumpSeeds (sr : Nat) : List Nat → GraphState → List Ref → Except String (GraphState × List Ref)
  | [], g, refs => .ok (g, refs)
  | nd :: rest, g, refs =>
    if nd ∈ g.nodes then
      bumpSeeds sr rest
        { g with weight := fun m => if m = nd then g.weight m + (sr : Int) else g.weight m }
        (refs ++ List.replicate sr ⟨nd, [], []⟩)
    else .error "KeyError: seed node not in graph"

/-- Lines 295-304 of Sim.step: when seed_refs is positive, bump the
seed-node weights and append the fresh agents, then loop over the newly
appended index range calling create_social_links on each new agent.
Class Ref defines no method of that name (only
create_defined_social_links and create_random_social_links exist), so
the first iteration of that loop raises AttributeError; the loop is
empty - and the step survives - exactly when seed_nodes is empty. -/
def seedPhase (cfg : Config) (g : GraphState) (refs : List Ref) :
    Except String (GraphState × List Ref) :=
  if 0 < cfg.seed_refs then
    match bumpSeeds cfg.seed_refs cfg.seed_nodes g refs with
    | .error e => .error e
    | .ok (g4, refs4) =>
      if cfg.seed_nodes = [] then .ok (g4, refs4)
      else .error "AttributeError: Ref object has no attribute create_social_links"
  else .ok (g, refs)

/-- Sim.step: recompute the scores, process the agents (in one batch or
in parallel batches), merge the batch results - concatenating the new
agent lists in batch order and summing the numeric-only DataFrame built
from orig_weights and the per-batch ref_nodes rows - and finally run
the seeding phase.  The returned natural number is the parent stream
cursor after the step. -/
def mergedGraph (g1 : GraphState) (results : List (List Ref × (Nat → List Int) × Nat)) :
    GraphState :=
  applyWeightUpdates g1 (pandasMerge g1.nodes
    ((fun n => Cell.int (g1.weight n)) :: results.map fun r => fun n => Cell.lst (r.2.1 n)))

/-- The merge and seeding tail of Sim.step: concatenate the per-batch
agent lists in batch order, apply the numeric-only DataFrame sum of
orig_weights and the per-batch ref_nodes rows as the new weights, then
run the seeding phase. -/
def stepTail (cfg : Config) (g1 : GraphState)
    (results : List (List Ref × (Nat → List Int) × Nat)) (k1 : Nat) :
    Except String (GraphState × List Ref × Nat) :=
  match seedPhase cfg (mergedGraph g1 results) ((results.map fun r => r.1).flatten) with
  | .error e => .error e
  | .ok (g3, refs2) => .ok (g3, refs2, k1)

def Sim.step (cfg : Config) (np nb : Nat) (g : GraphState) (refs : List Ref)
    (s : Nat → ℚ) (k : Nat) : Except String (GraphState × List Ref × Nat) :=
  match recompute_scores cfg g with
  | .error e => .error e
  | .ok g1 =>
    match runBatches cfg np nb g1 refs s k with
    | .error e => .error e
    | .ok (results, k1) => stepTail cfg g1 results k1

/-! Social link construction (Ref.create_defined_social_links and the
Sim constructor loop). -/

/-- The retry loop "kin = index; while kin == index: kin =
random.randint(0, n - 1)".  randint(0, n - 1) is modelled as the next
natural draw reduced mod n; with n = 0 the Python call raises
ValueError, modelled as none, and the fuel bounds the number of retries
(none on exhaustion, so a result of some is one the source would also
reach). -/
def drawPartner (i n : Nat) (s : Nat → Nat) (k : Nat) : Nat → Option (Nat × Nat)
  | 0 => none
  | fuel + 1 =>
    if n = 0 then none
    else if s k % n = i then drawPartner i n s (k + 1) fuel
    else some (s k % n, k + 1)

/-- Replace the element at position i (List.set, a no-op out of range;
all uses below are in range). -/
def setRef (refs : List Ref) (i : Nat) (r : Ref) : List Ref :=
  refs.set i r

/-- Record the symmetric kin relation i-j: first j is added to the kin
dict of agent i (self.kin_list[kin] = 1), then i is added to the kin
dict of agent j (sim.all_refugees[kin].kin_list[index] = 1). -/
def addPairK (refs : List Ref) (i j : Nat) : List Ref :=
  let r1 := refs.getD i dRef
  let refs1 := setRef refs i { r1 with kin_list := dictAdd r1.kin_list j }
  let r2 := refs1.getD j dRef
  setRef refs1 j { r2 with kin_list := dictAdd r2.kin_list i }

/-- Record the symmetric friend relation i-j, in source order. -/
def addPairF (refs : List Ref) (i j : Nat) : List Ref :=
  let r1 := refs.getD i dRef
  let refs1 := setRef refs i { r1 with friend_list := dictAdd r1.friend_list j }
  let r2 := refs1.getD j dRef
  setRef refs1 j { r2 with friend_list := dictAdd r2.friend_list i }

/-- One of the two for-loops of create_defined_social_links: draw cnt
partners distinct from i (each by the retry loop) and record the
symmetric relation for each, threading the randint cursor. -/
def addLinks (isKin : Bool) : Nat → Nat → Nat → List Ref → (Nat → Nat) → Nat → Nat →
    Option (List Ref × Nat)
  | 0, _, _, refs, _, k, _ => some (refs, k)
  | cnt + 1, i, n, refs, s, k, fuel =>
    match drawPartner i n s k fuel with
    | none => none
    | some (j, k1) =>
      addLinks isKin cnt i n (if isKin then addPairK refs i j else addPairF refs i j) s k1 fuel

/-- Ref.create_defined_social_links for agent index i in a population
of n agents: num_kin kin draws, then num_friends friend draws. -/
def create_defined_social_links (cfg : Config) (n i : Nat) (refs : List Ref)
    (s : Nat → Nat) (k fuel : Nat) : Option (List Ref × Nat) :=
  match addLinks true cfg.num_kin i n refs s k fuel with
  | none => none
  | some (refs1, k1) => addLinks false cfg.num_friends i n refs1 s k1 fuel

/-- The Sim constructor loop "for index, ref in
enumerate(self.all_refugees): ref.create_defined_social_links(index,
self)" over a given list of indices. -/
def linkLoop (cfg : Config) (n : Nat) : List Nat → List Ref → (Nat → Nat) → Nat → Nat →
    Option (List Ref × Nat)
  | [], refs, _, k, _ => some (refs, k)
  | i :: rest, refs, s, k, fuel =>
    match create_defined_social_links cfg n i refs s k fuel with
    | none => none
    | some (refs2, k2) => linkLoop cfg n rest refs2 s k2 fuel

/-- The initial agent list of the Sim constructor: for each node in
order, weight-many fresh agents located there (range of a negative
weight is empty, hence toNat). -/
def initRefs (g : GraphState) : List Ref :=
  g.nodes.flatMap fun nd => List.replicate (g.weight nd).toNat ⟨nd, [], []⟩

/-- sim.num_refugees: the sum of the node weights (an integer sum in
the source; randint receives it minus one). -/
def numRefugees (g : GraphState) : Nat :=
  ((g.nodes.map g.weight).sum).toNat

/-- The whole social-construction pass of the Sim constructor in the
defined (integer num_kin and num_friends) mode. -/
def buildAllLinks (cfg : Config) (n : Nat) (refs : List Ref) (s : Nat → Nat)
    (k fuel : Nat) : Option (List Ref × Nat) :=
  linkLoop cfg n (List.range refs.length) refs s k fuel

/-- kin dict of the agent at index i (empty out of range). -/
def kinAt (refs : List Ref) (i : Nat) : List Nat :=
  (refs.getD i dRef).kin_list

/-- friend dict of the agent at index i (empty out of range). -/
def frAt (refs : List Ref) (i : Nat) : List Nat :=
  (refs.getD i dRef).friend_list

/-- Executable check of the social invariant: no agent is its own kin
or friend, and every kin or friend entry is an in-range index whose own
dict names the agent back (with the out-of-range dicts empty this is
full symmetry: b in kin(a) iff a in kin(b), likewise for friends). -/
def symmCheck (refs : List Ref) : Bool :=
  (List.range refs.length).all fun i =>
    !(decide (i ∈ kinAt refs i)) && !(decide (i ∈ frAt refs i)) &&
    ((kinAt refs i).all fun j => decide (j < refs.length) && decide (i ∈ kinAt refs j)) &&
    ((frAt refs i).all fun j => decide (j < refs.length) && decide (i ∈ frAt refs j))

/-- The pair of social dictionaries of an agent record. -/
def kinfr (r : Ref) : List Nat × List Nat :=
  (r.kin_list, r.friend_list)

/-- The social invariant as a proposition over all index pairs: the
kin and friend relations are symmetric and irreflexive (out-of-range
indices have empty dictionaries, making the statement global). -/
def SymmOK (refs : List Ref) : Prop :=
  (∀ i j, (j ∈ kinAt refs i ↔ i ∈ kinAt refs j) ∧ (j ∈ frAt refs i ↔ i ∈ frAt refs j)) ∧
  (∀ i, i ∉ kinAt refs i ∧ i ∉ frAt refs i)

/-! Specification-side definitions used for comparison. -/

/-- Written to the words of the specification: the earliest neighbor of
strictly greatest desirability, i.e. the first list element whose
desirability is greater than or equal to that of every element. -/
def specBestNeighbor (des : Nat → ℚ) (l : List Nat) : Option Nat :=
  l.find? fun n => l.all fun m => decide (des m ≤ des n)

/-- Written to the words of the specification (determinism under
parallelism): the batched computation in which each batch reads the
shared pseudo-random stream starting at the cursor where the previous
batch stopped, with results concatenated in batch order. -/
def process_chunked_threaded (cfg : Config) (g : GraphState) (ns : Nat → ℚ)
    (allRefs : List Ref) : List (List Nat) → (Nat → ℚ) → Nat → List Ref × Nat
  | [], _, k => ([], k)
  | c :: rest, s, k =>
    let r := processLoop cfg g ns allRefs c s k
    let r2 := process_chunked_threaded cfg g ns allRefs rest s r.2
    (r.1 ++ r2.1, r2.2)

/-! Concrete instances used by scenario theorems, counterexamples and
witnesses. -/

/-- The 3-node path graph of the specification scenario, with node ids
1 (A), 2 (B), 3 (C): initial weights (10, 0, 0), one conflict at A,
no camps anywhere. -/
def gPath : GraphState where
  nodes := [1, 2, 3]
  adj := fun n => if n = 1 then [2] else if n = 2 then [1, 3] else if n = 3 then [2] else []
  weight := fun n => if n = 1 then 10 else 0
  num_conflicts := fun n => if n = 1 then 1 else 0
  num_camps := fun _ => 0
  location_score := fun _ => 1/2
  norm_weight := fun _ => none
  norm_camps := fun _ => none
  norm_conflicts := fun _ => none
  node_score := fun _ => none

/-- The ten agents initially at node 1 of the path scenario. -/
def refsPath : List Ref := List.replicate 10 ⟨1, [], []⟩

/-- Two-node graph (ids 1, 2) holding two agents at node 1, used for
the parallelism counterexample and witnesses. -/
def gTwo : GraphState where
  nodes := [1, 2]
  adj := fun n => if n = 1 then [2] else if n = 2 then [1] else []
  weight := fun n => if n = 1 then 2 else 0
  num_conflicts := fun _ => 0
  num_camps := fun _ => 0
  location_score := fun _ => 1/2
  norm_weight := fun _ => none
  norm_camps := fun _ => none
  norm_conflicts := fun _ => none
  node_score := fun _ => none

/-- The two agents of gTwo, both at node 1, with no social links. -/
def refsTwo : List Ref := [⟨1, [], []⟩, ⟨1, [], []⟩]

/-- A stream whose first draw (1/10) selects a move and whose later
draws (9/10) do not, under the default probabilities. -/
def sTwo : Nat → ℚ := fun k => if k = 0 then 1/10 else 9/10

/-- One-node graph of weight zero: the degenerate population. -/
def gZero : GraphState where
  nodes := [1]
  adj := fun _ => []
  weight := fun _ => 0
  num_conflicts := fun _ => 0
  num_camps := fun _ => 0
  location_score := fun _ => 1/2
  norm_weight := fun _ => none
  norm_camps := fun _ => none
  norm_conflicts := fun _ => none
  node_score := fun _ => none

/-- Two-node graph with a camp at node 1 and no agents, used to ask for
the norm_camps attribute after a step. -/
def gCamp : GraphState where
  nodes := [1, 2]
  adj := fun _ => []
  weight := fun n => if n = 1 then 1 else 0
  num_conflicts := fun _ => 0
  num_camps := fun n => if n = 1 then 3 else 0
  location_score := fun _ => 1/2
  norm_weight := fun _ => none
  norm_camps := fun _ => none
  norm_conflicts := fun _ => none
  node_score := fun _ => none

/-- Graph containing node id 0 as the sole neighbor of node 2, with a
conflict at node 2 forcing its agent to move. -/
def gNodeZero : GraphState where
  nodes := [0, 2]
  adj := fun n => if n = 2 then [0] else if n = 0 then [2] else []
  weight := fun n => if n = 2 then 1 else 0
  num_conflicts := fun n => if n = 2 then 1 else 0
  num_camps := fun _ => 0
  location_score := fun _ => 1/2
  norm_weight := fun _ => none
  norm_camps := fun _ => none
  norm_conflicts := fun _ => none
  node_score := fun _ => none

/-- The single agent of gNodeZero, located at node 2. -/
def refsNodeZero : List Ref := [⟨2, [], []⟩]

/-- Three-node fan: node 1 has neighbors 2 and 3, used by the
destination-choice witness. -/
def gFan : GraphState where
  nodes := [1, 2, 3]
  adj := fun n => if n = 1 then [2, 3] else []
  weight := fun n => if n = 1 then 1 else 0
  num_conflicts := fun n => if n = 1 then 1 else 0
  num_camps := fun _ => 0
  location_score := fun _ => 1/2
  norm_weight := fun _ => none
  norm_camps := fun _ => none
  norm_conflicts := fun _ => none
  node_score := fun _ => none

/-- The single agent of gFan, located at node 1. -/
def refsFan : List Ref := [⟨1, [], []⟩]

/-- A node-score table making neighbor 3 strictly best for gFan. -/
def nsFan : Nat → ℚ := fun n => (n : ℚ)

/-- The all-zero node-score table. -/
def nsZero : Nat → ℚ := fun _ => 0

/-- The two agents of gTwo holding each other as kin and as friend. -/
def refsLinked : List Ref := [⟨1, [1], [1]⟩, ⟨1, [0], [0]⟩]

/-! Basic helper lemmas. -/

theorem le_foldl_max (l : List Int) (b : Int) : b ≤ List.foldl max b l := by
  induction l generalizing b with
  | nil => simp
  | cons h t ih => simpa using le_trans (le_max_left b h) (ih (max b h))

theorem mem_le_foldl_max (l : List Int) (b x : Int) (hx : x ∈ l) : x ≤ List.foldl max b l := by
  induction l generalizing b with
  | nil => simp at hx
  | cons h t ih =>
    rcases List.mem_cons.mp hx with rfl | hx
    · simpa using le_trans (le_max_right b x) (le_foldl_max t (max b x))
    · simpa using ih (max b h) hx

theorem le_pymax_of_mem {l : List Int} {x : Int} (hx : x ∈ l) : x ≤ pymax l := by
  cases l with
  | nil => simp at hx
  | cons h t =>
    rcases List.mem_cons.mp hx with rfl | hx
    · exact le_foldl_max t x
    · exact mem_le_foldl_max t h x hx

theorem pymax_nonneg {l : List Int} (hne : l ≠ []) (h : ∀ x ∈ l, 0 ≤ x) : 0 ≤ pymax l := by
  cases l with
  | nil => exact absurd rfl hne
  | cons a t => exact le_trans (h a (List.mem_cons_self a t)) (le_pymax_of_mem (List.mem_cons_self a t))

theorem mem_dictAdd (l : List Nat) (k a : Nat) : a ∈ dictAdd l k ↔ a ∈ l ∨ a = k := by
  unfold dictAdd
  split
  · next h => constructor
              · exact fun ha => Or.inl ha
              · rintro (ha | rfl)
                · exact ha
                · exact h
  · simp [List.mem_append]

theorem getD_set_self {l : List α} {i : Nat} {a d : α} (h : i < l.length) :
    (l.set i a).getD i d = a := by
  simp [List.getD_eq_getElem?_getD, List.getElem?_set, h]

theorem getD_set_other {l : List α} {i j : Nat} {a d : α} (h : i ≠ j) :
    (l.set i a).getD j d = l.getD j d := by
  simp [List.getD_eq_getElem?_getD, List.getElem?_set, h]

theorem getD_map_fn (l : List α) (f : α → β) (d : α) (i : Nat) :
    (l.map f).getD i (f d) = f (l.getD i d) :=
  List.getD_map l d f

/-! Characterization of the find_new_node selection loop. -/

theorem findLoop_all_le (des : Nat → ℚ) :
    ∀ (l : List Nat) (bs : ℚ) (best : Option Nat),
      (∀ n ∈ l, des n ≤ bs) → findLoop des l bs best = best := by
  intro l
  induction l with
  | nil => intro bs best _; rfl
  | cons n rest ih =>
    intro bs best h
    have hn : ¬ bs < des n := not_lt.mpr (h n (List.mem_cons_self n rest))
    simp only [findLoop, if_neg hn]
    exact ih bs best fun m hm => h m (List.mem_cons_of_mem n hm)

theorem findLoop_first_max (des : Nat → ℚ) :
    ∀ (l1 : List Nat) (b : Nat) (l2 : List Nat) (bs : ℚ) (best : Option Nat),
      bs < des b → (∀ m ∈ l1, des m < des b) → (∀ m ∈ l2, des m ≤ des b) →
      findLoop des (l1 ++ b :: l2) bs best = some b := by
  intro l1
  induction l1 with
  | nil =>
    intro b l2 bs best hb _ h2
    simp only [List.nil_append, findLoop, if_pos hb]
    exact findLoop_all_le des l2 (des b) (some b) h2
  | cons a t ih =>
    intro b l2 bs best hb h1 h2
    have ha : des a < des b := h1 a (List.mem_cons_self a t)
    have ht : ∀ m ∈ t, des m < des b := fun m hm => h1 m (List.mem_cons_of_mem a hm)
    by_cases hba : bs < des a
    · simp only [List.cons_append, findLoop, if_pos hba]
      exact ih b l2 (des a) (some a) ha ht h2
    · simp only [List.cons_append, findLoop, if_neg hba]
      exact ih b l2 bs best hb ht h2

theorem find?_decomp {p : α → Bool} :
    ∀ {l : List α} {b : α}, l.find? p = some b →
      ∃ l1 l2, l = l1 ++ b :: l2 ∧ (∀ m ∈ l1, p m = false) := by
  intro l
  induction l with
  | nil => intro b h; simp [List.find?] at h
  | cons a t ih =>
    intro b h
    by_cases hpa : p a = true
    · have hab : a = b := by
        rw [List.find?_cons, hpa] at h
        simpa using h
      subst hab
      exact ⟨[], t, rfl, by simp⟩
    · have hpa' : p a = false := Bool.eq_false_iff.mpr hpa
      rw [List.find?_cons, hpa'] at h
      obtain ⟨l1, l2, hl, hf⟩ := ih h
      exact ⟨a :: l1, l2, by simp [hl], by
        intro m hm
        rcases List.mem_cons.mp hm with rfl | hm
        · exact hpa'
        · exact hf m hm⟩

theorem exists_max_mem (des : Nat → ℚ) :
    ∀ (l : List Nat), l ≠ [] → ∃ b ∈ l, ∀ m ∈ l, des m ≤ des b := by
  intro l
  induction l with
  | nil => intro h; exact absurd rfl h
  | cons a t ih =>
    intro _
    by_cases ht : t = []
    · subst ht
      exact ⟨a, List.mem_cons_self a [], by simp⟩
    · obtain ⟨b, hb, hmax⟩ := ih ht
      by_cases hab : des a ≤ des b
      · refine ⟨b, List.mem_cons_of_mem a hb, ?_⟩
        intro m hm
        rcases List.mem_cons.mp hm with rfl | hm
        · exact hab
        · exact hmax m hm
      · refine ⟨a, List.mem_cons_self a t, ?_⟩
        intro m hm
        rcases List.mem_cons.mp hm with rfl | hm
        · exact le_refl _
        · exact le_trans (hmax m hm) (le_of_not_le hab)

theorem specBestNeighbor_exists (des : Nat → ℚ) (l : List Nat) (hne : l ≠ []) :
    ∃ b, specBestNeighbor des l = some b := by
  obtain ⟨b, hb, hmax⟩ := exists_max_mem des l hne
  have hs : (specBestNeighbor des l).isSome := by
    unfold specBestNeighbor
    rw [List.find?_isSome]
    refine ⟨b, hb, ?_⟩
    simp only [List.all_eq_true, decide_eq_true_eq]
    exact hmax
  exact Option.isSome_iff_exists.mp hs

theorem specBestNeighbor_spec {des : Nat → ℚ} {l : List Nat} {b : Nat}
    (h : specBestNeighbor des l = some b) :
    b ∈ l ∧ (∀ m ∈ l, des m ≤ des b) ∧
      ∃ l1 l2, l = l1 ++ b :: l2 ∧ ∀ m ∈ l1, des m < des b := by
  unfold specBestNeighbor at h
  have hmax : ∀ m ∈ l, des m ≤ des b := by
    have hpb := List.find?_some h
    simp only [List.all_eq_true, decide_eq_true_eq] at hpb
    exact hpb
  obtain ⟨l1, l2, hl, hfail⟩ := find?_decomp h
  refine ⟨hl ▸ List.mem_append.mpr (Or.inr (List.mem_cons_self b l2)), hmax, l1, l2, hl, ?_⟩
  intro m hm
  have hm' : ¬ ∀ x ∈ l, des x ≤ des m := by
    have hf := hfail m hm
    intro hall
    rw [Bool.eq_false_iff] at hf
    apply hf
    simp only [List.all_eq_true, decide_eq_true_eq]
    exact hall
  push_neg at hm'
  obtain ⟨x, hx, hxm⟩ := hm'
  exact lt_of_lt_of_le hxm (hmax x hx)

/-- When the specification-side earliest argmax of the neighbor list is
defined and clears the -99 sentinel, the selection loop of the source
returns exactly it. -/
theorem find_new_node_eq_spec {cfg : Config} {g : GraphState} {ns : Nat → ℚ}
    {allRefs : List Ref} {node r b : Nat}
    (hb : specBestNeighbor (desirability cfg ns allRefs r) (g.adj node) = some b)
    (hgt : -99 < desirability cfg ns allRefs r b) :
    find_new_node cfg g ns allRefs node r = some b := by
  obtain ⟨hmem, hmax, l1, l2, hl, hpre⟩ := specBestNeighbor_spec hb
  have hne : g.adj node ≠ [] := by
    intro hnil
    rw [hnil] at hmem
    simp at hmem
  unfold find_new_node
  rw [if_neg hne, hl]
  exact findLoop_first_max _ l1 b l2 (-99) none hgt hpre
    (fun m hm => hmax m (hl ▸ List.mem_append.mpr (Or.inr (List.mem_cons_of_mem b hm))))

theorem processOneRef_node_of_move {cfg : Config} {g : GraphState} {ns : Nat → ℚ}
    {allRefs : List Ref} {r : Nat} {s : Nat → ℚ} {k : Nat} {b : Nat}
    (hmv : (decideMove cfg (g.num_conflicts (allRefs.getD r dRef).node)
        (g.num_camps (allRefs.getD r dRef).node) s k).1 = true)
    (hfn : find_new_node cfg g ns allRefs (allRefs.getD r dRef).node r = some b) :
    (processOneRef cfg g ns allRefs r s k).1.node =
      if b = 0 then (allRefs.getD r dRef).node else b := by
  simp only [processOneRef, hmv, if_true, hfn]
  by_cases hb0 : b = 0
  · simp [hb0]
  · simp [hb0]

theorem processOneRef_node_isolate {cfg : Config} {g : GraphState} {ns : Nat → ℚ}
    {allRefs : List Ref} {r : Nat} {s : Nat → ℚ} {k : Nat}
    (hmv : (decideMove cfg (g.num_conflicts (allRefs.getD r dRef).node)
        (g.num_camps (allRefs.getD r dRef).node) s k).1 = true)
    (hfn : find_new_node cfg g ns allRefs (allRefs.getD r dRef).node r = none) :
    (processOneRef cfg g ns allRefs r s k).1.node = (allRefs.getD r dRef).node := by
  simp only [processOneRef, hmv, if_true, hfn]

/-! np.array_split structure. -/

theorem length_chunksBySizes (szs : List Nat) :
    ∀ (l : List α), (chunksBySizes szs l).length = szs.length := by
  induction szs with
  | nil => intro l; rfl
  | cons sz rest ih => intro l; simp [chunksBySizes, ih]

theorem flatten_chunksBySizes (szs : List Nat) :
    ∀ (l : List α), (chunksBySizes szs l).flatten = l.take szs.sum := by
  induction szs with
  | nil => intro l; simp [chunksBySizes]
  | cons sz rest ih =>
    intro l
    simp only [chunksBySizes, List.flatten_cons, ih, List.sum_cons]
    rw [List.take_add]

theorem sum_range_ite (q : Nat) :
    ∀ (k r : Nat), ((List.range k).map fun i => if i < r then q + 1 else q).sum = k * q + min r k := by
  intro k
  induction k with
  | zero => intro r; simp
  | succ k ih =>
    intro r
    rw [List.range_succ, List.map_append, List.sum_append, ih r]
    simp only [List.map_cons, List.map_nil, List.sum_cons, List.sum_nil]
    by_cases hk : k < r
    · rw [if_pos hk]
      have h1 : min r k = k := by omega
      have h2 : min r (k + 1) = k + 1 := by omega
      rw [h1, h2]
      ring_nf
    · rw [if_neg hk]
      have h1 : min r k = r := by omega
      have h2 : min r (k + 1) = r := by omega
      rw [h1, h2]
      ring_nf

theorem sum_splitSizes (N k : Nat) (hk : 0 < k) : (splitSizes N k).sum = N := by
  unfold splitSizes
  rw [sum_range_ite (N / k) k (N % k)]
  have hlt : N % k < k := Nat.mod_lt N hk
  have hmin : min (N % k) k = N % k := by omega
  rw [hmin]
  have := Nat.div_add_mod N k
  omega

theorem npArraySplit_flatten (l : List α) (k : Nat) (hk : 0 < k) :
    (npArraySplit l k).flatten = l := by
  unfold npArraySplit
  rw [flatten_chunksBySizes, sum_splitSizes l.length k hk, List.take_length]

theorem npArraySplit_length (l : List α) (k : Nat) :
    (npArraySplit l k).length = k := by
  unfold npArraySplit
  rw [length_chunksBySizes]
  simp [splitSizes]

/-! The processing loop: stream hand-off across concatenation, and
preservation of everything but the location. -/

theorem processLoop_append (cfg : Config) (g : GraphState) (ns : Nat → ℚ)
    (allRefs : List Ref) (s : Nat → ℚ) :
    ∀ (a b : List Nat) (k : Nat),
      processLoop cfg g ns allRefs (a ++ b) s k =
        ((processLoop cfg g ns allRefs a s k).1 ++
          (processLoop cfg g ns allRefs b s (processLoop cfg g ns allRefs a s k).2).1,
         (processLoop cfg g ns allRefs b s (processLoop cfg g ns allRefs a s k).2).2) := by
  intro a
  induction a with
  | nil => intro b k; simp [processLoop]
  | cons r rest ih =>
    intro b k
    simp only [List.cons_append, processLoop, List.append_eq, ih]

theorem processOneRef_kinfr (cfg : Config) (g : GraphState) (ns : Nat → ℚ)
    (allRefs : List Ref) (r : Nat) (s : Nat → ℚ) (k : Nat) :
    kinfr (processOneRef cfg g ns allRefs r s k).1 = kinfr (allRefs.getD r dRef) := by
  simp only [processOneRef]
  split
  · split
    · split
      · rfl
      · rfl
    · rfl
  · rfl

theorem processLoop_kinfr (cfg : Config) (g : GraphState) (ns : Nat → ℚ)
    (allRefs : List Ref) (s : Nat → ℚ) :
    ∀ (idxs : List Nat) (k : Nat),
      (processLoop cfg g ns allRefs idxs s k).1.map kinfr =
        idxs.map fun i => kinfr (allRefs.getD i dRef) := by
  intro idxs
  induction idxs with
  | nil => intro k; rfl
  | cons r rest ih =>
    intro k
    simp only [processLoop, List.map_cons, processOneRef_kinfr, ih]

theorem map_range_getD (l : List α) (f : α → β) (d : α) :
    (List.range l.length).map (fun i => f (l.getD i d)) = l.map f := by
  induction l with
  | nil => rfl
  | cons h t ih =>
    rw [List.length_cons, List.range_succ_eq_map]
    simp only [List.map_cons, List.getD_cons_zero, List.map_map]
    congr 1

/-! The merge phase never changes a weight: every per-batch row is the
untouched empty-list ref_nodes mapping, so every DataFrame column is of
object dtype and the numeric-only sum is empty. -/

theorem pandasMerge_all_lst (nodes : List Nat) (r0 : Nat → Cell) (rest : List (Nat → Cell))
    (hne : rest ≠ []) (hl : ∀ r ∈ rest, ∀ n, ∃ z, r n = Cell.lst z) :
    pandasMerge nodes (r0 :: rest) = [] := by
  unfold pandasMerge
  have hfilter : nodes.filter (colAllInt (r0 :: rest)) = [] := by
    rw [List.filter_eq_nil_iff]
    intro n _
    obtain ⟨r, hr⟩ := List.exists_mem_of_ne_nil rest hne
    obtain ⟨z, hz⟩ := hl r hr n
    simp only [colAllInt, List.all_eq_true, Bool.not_eq_true]
    intro hall
    have := hall r (List.mem_cons_of_mem r0 hr)
    rw [hz] at this
    simp at this
  rw [hfilter]
  simp

theorem seedPhase_ok {cfg : Config} {g : GraphState} {refs : List Ref}
    {g4 : GraphState} {refs4 : List Ref}
    (h : seedPhase cfg g refs = .ok (g4, refs4)) : g4 = g ∧ refs4 = refs := by
  unfold seedPhase at h
  split at h
  · split at h
    · simp at h
    · next g5 refs5 heq =>
      split at h
      · next hsn =>
        rw [hsn] at heq
        unfold bumpSeeds at heq
        simp only [Except.ok.injEq, Prod.mk.injEq] at heq h
        exact ⟨(heq.1.trans h.1).symm, (heq.2.trans h.2).symm⟩
      · simp at h
  · simp only [Except.ok.injEq, Prod.mk.injEq] at h
    exact ⟨h.1.symm, h.2.symm⟩

theorem flatten_process_chunks (cfg : Config) (g : GraphState) (ns : Nat → ℚ)
    (allRefs : List Ref) (s : Nat → ℚ) (k : Nat) (chunks : List (List Nat))
    (hfl : chunks.flatten = List.range allRefs.length) :
    ((chunks.map fun c => (processLoop cfg g ns allRefs c s k).1).flatten).map kinfr =
      allRefs.map kinfr := by
  rw [List.map_flatten, List.map_map]
  have hfn : ((List.map kinfr) ∘ fun c => (processLoop cfg g ns allRefs c s k).1) =
      List.map fun i => kinfr (allRefs.getD i dRef) := by
    funext c
    exact processLoop_kinfr cfg g ns allRefs s c k
  rw [hfn, ← List.map_flatten, hfl, map_range_getD]

theorem runBatches_ok {cfg : Config} {np nb : Nat} {g : GraphState} {refs : List Ref}
    {s : Nat → ℚ} {k : Nat} {results : List (List Ref × (Nat → List Int) × Nat)} {k1 : Nat}
    (h : runBatches cfg np nb g refs s k = .ok (results, k1)) :
    results ≠ [] ∧ (∀ r ∈ results, r.2.1 = refNodesInit g) ∧
      ((results.map fun r => r.1).flatten).map kinfr = refs.map kinfr := by
  unfold runBatches at h
  split at h
  · split at h
    · simp at h
    · next hnb =>
      simp only [Except.ok.injEq, Prod.mk.injEq] at h
      obtain ⟨hres, _⟩ := h
      subst hres
      refine ⟨?_, ?_, ?_⟩
      · intro hnil
        have := congrArg List.length hnil
        simp [npArraySplit_length] at this
        exact hnb this
      · intro r hr
        obtain ⟨c, _, rfl⟩ := List.mem_map.mp hr
        rfl
      · have hproj : ((npArraySplit (List.range refs.length) nb).map
            (fun c => process_refs cfg g (nodeScoreAttr g) refs c s k)).map (fun r => r.1) =
            (npArraySplit (List.range refs.length) nb).map
              (fun c => (processLoop cfg g (nodeScoreAttr g) refs c s k).1) := by
          rw [List.map_map]
          rfl
        rw [hproj]
        exact flatten_process_chunks cfg g (nodeScoreAttr g) refs s k _
          (npArraySplit_flatten _ nb (Nat.pos_of_ne_zero hnb))
  · simp only [Except.ok.injEq, Prod.mk.injEq] at h
    obtain ⟨hres, _⟩ := h
    subst hres
    refine ⟨by simp, ?_, ?_⟩
    · intro r hr
      simp only [List.mem_singleton] at hr
      subst hr
      rfl
    · show (([(process_refs cfg g (nodeScoreAttr g) refs (List.range refs.length) s k)].map
        fun r => r.1).flatten).map kinfr = refs.map kinfr
      have : ([(process_refs cfg g (nodeScoreAttr g) refs (List.range refs.length) s k)].map
          fun r => r.1).flatten =
          (processLoop cfg g (nodeScoreAttr g) refs (List.range refs.length) s k).1 := by
        simp [process_refs]
      rw [this, processLoop_kinfr, map_range_getD]

/-- Shape of every successful step: the guards of the score phase were
passed, the weight map is untouched (the merge sums an all-object
DataFrame), norm_weight was set for every graph node, the camp and
conflict normalizations were never stored, and the new agent list keeps
every agent's kin and friend dictionaries at its original index. -/
theorem step_ok_shape {cfg : Config} {np nb : Nat} {g : GraphState} {refs : List Ref}
    {s : Nat → ℚ} {k : Nat} {g' : GraphState} {refs' : List Ref} {k' : Nat}
    (h : Sim.step cfg np nb g refs s k = .ok (g', refs', k')) :
    g.nodes ≠ [] ∧ pymax (g.nodes.map g.weight) ≠ 0 ∧
      g'.weight = g.weight ∧
      g'.norm_weight =
        (fun n => if n ∈ g.nodes then some (normWeightVal g n) else g.norm_weight n) ∧
      g'.norm_camps = g.norm_camps ∧ g'.norm_conflicts = g.norm_conflicts ∧
      refs'.map kinfr = refs.map kinfr := by
  unfold Sim.step at h
  split at h
  · simp at h
  · next g1 heq1 =>
    split at h
    · simp at h
    · next results k1 heq2 =>
      unfold stepTail at h
      split at h
      · simp at h
      · next g3 refs2 heq3 =>
        simp only [Except.ok.injEq, Prod.mk.injEq] at h
        obtain ⟨hg3, hrefs2, _⟩ := h
        unfold recompute_scores at heq1
        split at heq1
        · simp at heq1
        · split at heq1
          · simp at heq1
          · next hnil hmax =>
            simp only [Except.ok.injEq] at heq1
            obtain ⟨hg3', hrefs2'⟩ := seedPhase_ok heq3
            obtain ⟨hrne, hrinit, hrkinfr⟩ := runBatches_ok heq2
            subst heq1
            have hmerge : pandasMerge g.nodes
                ((fun n => Cell.int (g.weight n)) ::
                  results.map fun r => fun n => Cell.lst (r.2.1 n)) = [] := by
              apply pandasMerge_all_lst
              · intro hnil2
                have hlen := congrArg List.length hnil2
                simp only [List.length_map, List.length_nil] at hlen
                exact hrne (List.length_eq_zero.mp hlen)
              · intro r hr n
                obtain ⟨r0, _, rfl⟩ := List.mem_map.mp hr
                exact ⟨_, rfl⟩
            refine ⟨hnil, hmax, ?_, ?_, ?_, ?_, ?_⟩
            · rw [← hg3, hg3']
              simp [mergedGraph, applyWeightUpdates, hmerge]
            · rw [← hg3, hg3']
              simp [mergedGraph, applyWeightUpdates, hmerge]
            · rw [← hg3, hg3']
              simp [mergedGraph, applyWeightUpdates, hmerge]
            · rw [← hg3, hg3']
              simp [mergedGraph, applyWeightUpdates, hmerge]
            · rw [← hrefs2, hrefs2']
              exact hrkinfr

/-! Claim theorems. -/

/-- C1: the specification scenario demands that after one step on the
path A(1)-B(2)-C(3) with weights (10,0,0) and a conflict at A the
weights become (0,10,0).  The code instead leaves the weights untouched
at (10,0,0) - process_refs returns the never-written ref_nodes mapping
instead of its weight deltas, so the numeric-only DataFrame sum drops
every column - even though all ten agents do relocate to B.  This
theorem evaluates the step at the scenario. -/
theorem c1_scenario_weights_untouched :
    (Sim.step defaultConfig 1 1 gPath refsPath (fun _ => 0) 0).map
      (fun t => (t.2.1.map Ref.node, t.1.weight 1, t.1.weight 2, t.1.weight 3)) =
    .ok (List.replicate 10 2, 10, 0, 0) := by
  with_unfolding_all rfl

/-- C2: process_refs returns the untouched empty-list mapping
ref_nodes as its weight-delta component, and therefore a step with
seed_refs = 0 leaves every weight attribute exactly as it was,
whether it completes through the serial or the batched path. -/
theorem c2_weights_invariant :
    (∀ (cfg : Config) (g : GraphState) (ns : Nat → ℚ) (allRefs : List Ref)
        (idxs : List Nat) (s : Nat → ℚ) (k : Nat),
      (process_refs cfg g ns allRefs idxs s k).2.1 = refNodesInit g) ∧
    (∀ (cfg : Config) (np nb : Nat) (g : GraphState) (refs : List Ref)
        (s : Nat → ℚ) (k : Nat) (n : Nat), cfg.seed_refs = 0 →
      (Sim.step cfg np nb g refs s k).map (fun t => t.1.weight n) =
        (Sim.step cfg np nb g refs s k).map (fun _ => g.weight n)) := by
  constructor
  · intro cfg g ns allRefs idxs s k
    rfl
  · intro cfg np nb g refs s k n _
    cases hstep : Sim.step cfg np nb g refs s k with
    | error e => rfl
    | ok t =>
      obtain ⟨g', refs', k'⟩ := t
      obtain ⟨_, _, hw, _⟩ := step_ok_shape hstep
      simp only [Except.map, hw]

/-- Witness for C2 at a concrete input: the two-node, two-agent system
with the default configuration (seed_refs = 0). -/
theorem c2_weights_invariant_witness :
    (process_refs defaultConfig gTwo nsFan refsTwo [0, 1] sTwo 0).2.1 = refNodesInit gTwo ∧
    (Sim.step defaultConfig 1 1 gTwo refsTwo sTwo 0).map (fun t => t.1.weight 1) =
      (Sim.step defaultConfig 1 1 gTwo refsTwo sTwo 0).map (fun _ => gTwo.weight 1) :=
  ⟨c2_weights_invariant.1 defaultConfig gTwo nsFan refsTwo [0, 1] sTwo 0,
   c2_weights_invariant.2 defaultConfig 1 1 gTwo refsTwo sTwo 0 1 rfl⟩

/-- C3: with seed_refs positive and a nonempty seed_nodes list, the
seeding tail of the step crashes: the loop over the newly appended
index range calls create_social_links, a method class Ref does not
define, so no kin or friend links are ever created for seeded agents.
Evaluated at seed_refs = 5, seed_nodes = [1] on the path graph. -/
theorem c3_seeding_crashes :
    Sim.step { defaultConfig with seed_refs := 5, seed_nodes := [1] } 1 1 gPath refsPath
      (fun _ => 0) 0 =
    .error "AttributeError: Ref object has no attribute create_social_links" := by
  with_unfolding_all rfl

/-- C5: the claim says the population-maximum divisor is floored at 1
when every weight is zero.  The code has no such floor (it floors only
the camp and conflict divisors), so on an all-zero-weight graph the
step dies with a ZeroDivisionError instead of completing. -/
theorem c5_zero_weights_crash :
    Sim.step defaultConfig 1 1 gZero [] (fun _ => 0) 0 =
      .error "ZeroDivisionError: division by zero" := by
  with_unfolding_all rfl

/-- C9: the move decision of process_refs, by node classification in
priority order: a positive conflict count forces the move with
probability one, consuming no draw and ignoring the configured
percent_move_at_conflict entirely; otherwise a positive camp count
compares one draw against percent_move_at_camp; otherwise one draw is
compared against percent_move_other. -/
theorem c9_move_decision :
    ∀ (cfg : Config) (nc ncamps : Int) (s : Nat → ℚ) (k : Nat),
      (0 < nc → ∀ p : ℚ,
        decideMove { cfg with percent_move_at_conflict := p } nc ncamps s k = (true, k)) ∧
      (nc ≤ 0 → 0 < ncamps →
        decideMove cfg nc ncamps s k = (decide (s k < cfg.percent_move_at_camp), k + 1)) ∧
      (nc ≤ 0 → ncamps ≤ 0 →
        decideMove cfg nc ncamps s k = (decide (s k < cfg.percent_move_other), k + 1)) := by
  intro cfg nc ncamps s k
  refine ⟨?_, ?_, ?_⟩
  · intro hc p
    simp [decideMove, hc]
  · intro hc hcamp
    simp [decideMove, not_lt.mpr hc, hcamp]
  · intro hc hcamp
    simp [decideMove, not_lt.mpr hc, not_lt.mpr hcamp]

/-- Witness for C9: all three classifications evaluated concretely
under the default configuration. -/
theorem c9_move_decision_witness :
    decideMove { defaultConfig with percent_move_at_conflict := 0 } 1 0 sTwo 0 = (true, 0) ∧
    decideMove defaultConfig 0 2 sTwo 0 =
      (decide (sTwo 0 < defaultConfig.percent_move_at_camp), 1) ∧
    decideMove defaultConfig 0 0 sTwo 0 =
      (decide (sTwo 0 < defaultConfig.percent_move_other), 1) :=
  ⟨(c9_move_decision defaultConfig 1 0 sTwo 0).1 (by decide) 0,
   (c9_move_decision defaultConfig 0 2 sTwo 0).2.1 (by decide) (by decide),
   (c9_move_decision defaultConfig 0 0 sTwo 0).2.2 (by decide) (by decide)⟩

/-- C10: the claim says link construction signals a configuration
error when the population is smaller than 2; the code instead spins in
the retry loop forever, because randint(0, 0) returns the requesting
index 0 on every draw.  Formally, no amount of fuel makes the partner
draw - or create_defined_social_links with any positive kin count -
return at population 1, for every stream: the loop diverges rather
than signalling anything. -/
theorem c10_singleton_population_diverges :
    (∀ (s : Nat → Nat) (k fuel : Nat), drawPartner 0 1 s k fuel = none) ∧
    (∀ (cfg : Config) (refs : List Ref) (s : Nat → Nat) (k fuel m : Nat),
      create_defined_social_links { cfg with num_kin := m + 1 } 1 0 refs s k fuel = none) := by
  have hdraw : ∀ (s : Nat → Nat) (fuel k : Nat), drawPartner 0 1 s k fuel = none := by
    intro s fuel
    induction fuel with
    | zero => intro k; rfl
    | succ fuel ih =>
      intro k
      simp only [drawPartner, Nat.mod_one]
      exact ih (k + 1)
  refine ⟨fun s k fuel => hdraw s fuel k, ?_⟩
  intro cfg refs s k fuel m
  unfold create_defined_social_links
  have : addLinks true (m + 1) 0 1 refs s k fuel = none := by
    unfold addLinks
    rw [hdraw s fuel k]
  rw [this]

/-- C4 counterexample: on the graph whose node 2 has the single
neighbor 0 and a conflict forcing the move, the earliest
strictly-greatest-desirability neighbor is node 0, yet the processed
agent stays at node 2: the Python truthiness guard on the returned
destination treats the integer node id 0 like None and silently drops
the move, so the post-step location is not the best neighbor. -/
theorem c4_counterexample :
    (decideMove defaultConfig (gNodeZero.num_conflicts 2) (gNodeZero.num_camps 2) sTwo 0).1
        = true ∧
    gNodeZero.adj 2 = [0] ∧
    specBestNeighbor (desirability defaultConfig nsZero refsNodeZero 0) (gNodeZero.adj 2)
        = some 0 ∧
    (processOneRef defaultConfig gNodeZero nsZero refsNodeZero 0 sTwo 0).1.node = 2 := by
  refine ⟨by decide, by decide, ?_, ?_⟩
  · with_unfolding_all decide
  · with_unfolding_all decide

/-- C4 as amended: for an agent whose Step A decision is a move, if its
location is an isolate then find_new_node returns none and the agent
stays (no error); and whenever the specification-side earliest argmax
of the neighbors exists and its desirability clears the -99 sentinel,
find_new_node returns exactly that neighbor - the policy never compares
it against staying - and the agent relocates there unless that
neighbor is the falsy node id 0, in which case the move is dropped and
the agent stays. -/
theorem c4_amended :
    ∀ (cfg : Config) (g : GraphState) (ns : Nat → ℚ) (allRefs : List Ref)
      (s : Nat → ℚ) (k r nd : Nat),
      nd = (allRefs.getD r dRef).node →
      (decideMove cfg (g.num_conflicts nd) (g.num_camps nd) s k).1 = true →
      ((g.adj nd = [] →
          find_new_node cfg g ns allRefs nd r = none ∧
          (processOneRef cfg g ns allRefs r s k).1.node = nd) ∧
       (∀ b, specBestNeighbor (desirability cfg ns allRefs r) (g.adj nd) = some b →
          -99 < desirability cfg ns allRefs r b →
          find_new_node cfg g ns allRefs nd r = some b ∧
          (processOneRef cfg g ns allRefs r s k).1.node = (if b = 0 then nd else b))) := by
  intro cfg g ns allRefs s k r nd hnd hmv
  subst hnd
  constructor
  · intro hadj
    have hfn : find_new_node cfg g ns allRefs (allRefs.getD r dRef).node r = none := by
      unfold find_new_node
      rw [if_pos hadj]
    exact ⟨hfn, processOneRef_node_isolate hmv hfn⟩
  · intro b hb hgt
    have hfn := find_new_node_eq_spec hb hgt
    exact ⟨hfn, processOneRef_node_of_move hmv hfn⟩

/-- Witness for C4 as amended: on the fan graph the agent at node 1 is
sent to neighbor 3, the strictly best of its two neighbors. -/
theorem c4_amended_witness :
    find_new_node defaultConfig gFan nsFan refsFan 1 0 = some 3 ∧
    (processOneRef defaultConfig gFan nsFan refsFan 0 sTwo 0).1.node =
      (if (3 : Nat) = 0 then 1 else 3) :=
  (c4_amended defaultConfig gFan nsFan refsFan sTwo 0 0 1 rfl (by decide)).2 3
    (by with_unfolding_all decide) (by with_unfolding_all decide)

/-- C6 counterexample: after a completed step on a graph with a camp
count of 3 at node 1 and non-negative attributes everywhere, the
norm_camps and norm_conflicts node attributes still do not exist (the
step computes the normalized lists only as locals feeding node_score),
while norm_weight does; so the claimed existence of all three derived
attributes fails. -/
theorem c6_counterexample :
    (Sim.step defaultConfig 1 1 gCamp [] (fun _ => 0) 0).map
        (fun t => ((t.1.norm_camps 1).isSome, (t.1.norm_conflicts 1).isSome,
          (t.1.norm_weight 1).isSome)) =
      .ok (false, false, true) ∧
    gCamp.num_camps 1 = 3 ∧
    0 ≤ gCamp.weight 1 ∧ 0 ≤ gCamp.weight 2 ∧
    0 ≤ gCamp.num_camps 1 ∧ 0 ≤ gCamp.num_camps 2 ∧
    0 ≤ gCamp.num_conflicts 1 ∧ 0 ≤ gCamp.num_conflicts 2 := by
  refine ⟨?_, by decide, by decide, by decide, by decide, by decide, by decide, by decide⟩
  with_unfolding_all rfl

/-- C6 as amended: given non-negative weights, camp and conflict
counts, every completed step stores norm_weight for each graph node
with the value weight divided by the population maximum, and that
value lies in [0,1] whenever the step could have completed (nonempty
graph, nonzero maximum); the normalized camp and conflict values -
which exist only as intermediates of node_score, never as node
attributes - always lie in [0,1]. -/
theorem c6_amended :
    ∀ (cfg : Config) (np nb : Nat) (g : GraphState) (refs : List Ref)
      (s : Nat → ℚ) (k n : Nat),
      n ∈ g.nodes →
      (∀ m ∈ g.nodes, 0 ≤ g.weight m) →
      (∀ m ∈ g.nodes, 0 ≤ g.num_camps m) →
      (∀ m ∈ g.nodes, 0 ≤ g.num_conflicts m) →
      ((Sim.step cfg np nb g refs s k).map (fun t => t.1.norm_weight n) =
        (Sim.step cfg np nb g refs s k).map (fun _ => some (normWeightVal g n))) ∧
      (g.nodes ≠ [] → pymax (g.nodes.map g.weight) ≠ 0 →
        0 ≤ normWeightVal g n ∧ normWeightVal g n ≤ 1) ∧
      (0 ≤ normCampsVal g n ∧ normCampsVal g n ≤ 1) ∧
      (0 ≤ normConflictsVal g n ∧ normConflictsVal g n ≤ 1) := by
  intro cfg np nb g refs s k n hn hw hc hk
  refine ⟨?_, ?_, ?_, ?_⟩
  · cases hstep : Sim.step cfg np nb g refs s k with
    | error e => rfl
    | ok t =>
      obtain ⟨g', refs', k'⟩ := t
      obtain ⟨_, _, _, hnw, _⟩ := step_ok_shape hstep
      simp only [Except.map, hnw, if_pos hn]
  · intro hne hmax
    have hmem : g.weight n ∈ g.nodes.map g.weight := List.mem_map_of_mem g.weight hn
    have hmapne : g.nodes.map g.weight ≠ [] := by
      intro h0
      rw [h0] at hmem
      simp at hmem
    have hnn : 0 ≤ pymax (g.nodes.map g.weight) := by
      apply pymax_nonneg hmapne
      intro x hx
      obtain ⟨m, hm, rfl⟩ := List.mem_map.mp hx
      exact hw m hm
    have hpos : (0 : Int) < pymax (g.nodes.map g.weight) := lt_of_le_of_ne hnn (Ne.symm hmax)
    have hposq : (0 : ℚ) < ((pymax (g.nodes.map g.weight) : Int) : ℚ) := by
      exact_mod_cast hpos
    constructor
    · exact div_nonneg (by exact_mod_cast hw n hn) (le_of_lt hposq)
    · rw [normWeightVal, div_le_one hposq]
      exact_mod_cast le_pymax_of_mem hmem
  · have h1 : (1 : Int) ≤ maxCampsVal g :=
      le_pymax_of_mem (List.mem_append.mpr (Or.inr (List.mem_singleton.mpr rfl)))
    have hposq : (0 : ℚ) < ((maxCampsVal g : Int) : ℚ) := by
      exact_mod_cast lt_of_lt_of_le Int.zero_lt_one h1
    constructor
    · exact div_nonneg (by exact_mod_cast hc n hn) (le_of_lt hposq)
    · rw [normCampsVal, div_le_one hposq]
      exact_mod_cast le_pymax_of_mem
        (List.mem_append.mpr (Or.inl (List.mem_map_of_mem g.num_camps hn)))
  · have h1 : (1 : Int) ≤ maxConflictsVal g :=
      le_pymax_of_mem (List.mem_append.mpr (Or.inr (List.mem_singleton.mpr rfl)))
    have hposq : (0 : ℚ) < ((maxConflictsVal g : Int) : ℚ) := by
      exact_mod_cast lt_of_lt_of_le Int.zero_lt_one h1
    constructor
    · exact div_nonneg (by exact_mod_cast hk n hn) (le_of_lt hposq)
    · rw [normConflictsVal, div_le_one hposq]
      exact_mod_cast le_pymax_of_mem
        (List.mem_append.mpr (Or.inl (List.mem_map_of_mem g.num_conflicts hn)))

/-- Witness for C6 as amended, at node 1 of the camp graph. -/
theorem c6_amended_witness :
    ((Sim.step defaultConfig 1 1 gCamp [] (fun _ => 0) 0).map (fun t => t.1.norm_weight 1) =
      (Sim.step defaultConfig 1 1 gCamp [] (fun _ => 0) 0).map
        (fun _ => some (normWeightVal gCamp 1))) ∧
    (gCamp.nodes ≠ [] → pymax (gCamp.nodes.map gCamp.weight) ≠ 0 →
      0 ≤ normWeightVal gCamp 1 ∧ normWeightVal gCamp 1 ≤ 1) ∧
    (0 ≤ normCampsVal gCamp 1 ∧ normCampsVal gCamp 1 ≤ 1) ∧
    (0 ≤ normConflictsVal gCamp 1 ∧ normConflictsVal gCamp 1 ≤ 1) :=
  c6_amended defaultConfig 1 1 gCamp [] (fun _ => 0) 0 1 (by decide) (by decide)
    (by decide) (by decide)

/-! Social-symmetry machinery. -/

theorem kinAt_out_of_range {refs : List Ref} {i : Nat} (h : refs.length ≤ i) :
    kinAt refs i = [] := by
  unfold kinAt
  rw [List.getD_eq_default _ _ h]
  rfl

theorem frAt_out_of_range {refs : List Ref} {i : Nat} (h : refs.length ≤ i) :
    frAt refs i = [] := by
  unfold frAt
  rw [List.getD_eq_default _ _ h]
  rfl

theorem symmCheck_of_SymmOK {refs : List Ref} (h : SymmOK refs) : symmCheck refs = true := by
  obtain ⟨hsym, hirr⟩ := h
  unfold symmCheck
  rw [List.all_eq_true]
  intro i hi
  rw [List.mem_range] at hi
  simp only [Bool.and_eq_true, Bool.not_eq_true', decide_eq_false_iff_not,
    List.all_eq_true, decide_eq_true_eq]
  refine ⟨⟨⟨(hirr i).1, (hirr i).2⟩, ?_⟩, ?_⟩
  · intro j hj
    have hsymj : i ∈ kinAt refs j := (hsym i j).1.mp hj
    refine ⟨?_, hsymj⟩
    by_contra hjl
    rw [kinAt_out_of_range (le_of_not_lt hjl)] at hsymj
    simp at hsymj
  · intro j hj
    have hsymj : i ∈ frAt refs j := (hsym i j).2.mp hj
    refine ⟨?_, hsymj⟩
    by_contra hjl
    rw [frAt_out_of_range (le_of_not_lt hjl)] at hsymj
    simp at hsymj

theorem length_addPairK (refs : List Ref) (i j : Nat) :
    (addPairK refs i j).length = refs.length := by
  unfold addPairK setRef
  simp [List.length_set]

theorem length_addPairF (refs : List Ref) (i j : Nat) :
    (addPairF refs i j).length = refs.length := by
  unfold addPairF setRef
  simp [List.length_set]

theorem getD_double_set {l : List Ref} {i j a : Nat} {ri rj : Ref} (hij : i ≠ j)
    (hi : i < l.length) (hj : j < l.length) :
    ((l.set i ri).set j rj).getD a dRef =
      if a = j then rj else if a = i then ri else l.getD a dRef := by
  by_cases haj : a = j
  · subst haj
    rw [if_pos rfl, getD_set_self (by rw [List.length_set]; exact hj)]
  · rw [if_neg haj, getD_set_other (fun h => haj h.symm)]
    by_cases hai : a = i
    · subst hai
      rw [if_pos rfl, getD_set_self hi]
    · rw [if_neg hai, getD_set_other (fun h => hai h.symm)]

theorem kinAt_addPairK {refs : List Ref} {i j : Nat} (hij : i ≠ j)
    (hi : i < refs.length) (hj : j < refs.length) (a : Nat) :
    kinAt (addPairK refs i j) a =
      if a = i then dictAdd (kinAt refs i) j
      else if a = j then dictAdd (kinAt refs j) i
      else kinAt refs a := by
  have hset : (refs.set i
      { refs.getD i dRef with kin_list := dictAdd (refs.getD i dRef).kin_list j }).getD j dRef =
      refs.getD j dRef := getD_set_other hij
  simp only [kinAt, addPairK, setRef, hset]
  rw [getD_double_set hij hi hj]
  by_cases haj : a = j <;> by_cases hai : a = i <;> simp_all

theorem frAt_addPairK {refs : List Ref} {i j : Nat} (hij : i ≠ j)
    (hi : i < refs.length) (hj : j < refs.length) (a : Nat) :
    frAt (addPairK refs i j) a = frAt refs a := by
  have hset : (refs.set i
      { refs.getD i dRef with kin_list := dictAdd (refs.getD i dRef).kin_list j }).getD j dRef =
      refs.getD j dRef := getD_set_other hij
  simp only [frAt, addPairK, setRef, hset]
  rw [getD_double_set hij hi hj]
  by_cases haj : a = j <;> by_cases hai : a = i <;> simp_all

theorem frAt_addPairF {refs : List Ref} {i j : Nat} (hij : i ≠ j)
    (hi : i < refs.length) (hj : j < refs.length) (a : Nat) :
    frAt (addPairF refs i j) a =
      if a = i then dictAdd (frAt refs i) j
      else if a = j then dictAdd (frAt refs j) i
      else frAt refs a := by
  have hset : (refs.set i
      { refs.getD i dRef with
        friend_list := dictAdd (refs.getD i dRef).friend_list j }).getD j dRef =
      refs.getD j dRef := getD_set_other hij
  simp only [frAt, addPairF, setRef, hset]
  rw [getD_double_set hij hi hj]
  by_cases haj : a = j <;> by_cases hai : a = i <;> simp_all

theorem kinAt_addPairF {refs : List Ref} {i j : Nat} (hij : i ≠ j)
    (hi : i < refs.length) (hj : j < refs.length) (a : Nat) :
    kinAt (addPairF refs i j) a = kinAt refs a := by
  have hset : (refs.set i
      { refs.getD i dRef with
        friend_list := dictAdd (refs.getD i dRef).friend_list j }).getD j dRef =
      refs.getD j dRef := getD_set_other hij
  simp only [kinAt, addPairF, setRef, hset]
  rw [getD_double_set hij hi hj]
  by_cases haj : a = j <;> by_cases hai : a = i <;> simp_all

theorem mem_ite_dictAdd {l1 l2 l3 : List Nat} {i j a b : Nat} :
    b ∈ (if a = i then dictAdd l1 j else if a = j then dictAdd l2 i else l3) ↔
      (a = i ∧ (b ∈ l1 ∨ b = j)) ∨ (a ≠ i ∧ a = j ∧ (b ∈ l2 ∨ b = i)) ∨
        (a ≠ i ∧ a ≠ j ∧ b ∈ l3) := by
  by_cases hai : a = i <;> by_cases haj : a = j <;> simp_all [mem_dictAdd]

theorem SymmOK_addPairK {refs : List Ref} {i j : Nat} (h : SymmOK refs) (hij : i ≠ j)
    (hi : i < refs.length) (hj : j < refs.length) : SymmOK (addPairK refs i j) := by
  obtain ⟨hsym, hirr⟩ := h
  constructor
  · intro a b
    constructor
    · rw [kinAt_addPairK hij hi hj a, kinAt_addPairK hij hi hj b,
        mem_ite_dictAdd, mem_ite_dictAdd]
      have hk := (hsym a b).1
      by_cases hai : a = i <;> by_cases haj : a = j <;>
        by_cases hbi : b = i <;> by_cases hbj : b = j <;>
        simp_all
    · rw [frAt_addPairK hij hi hj a, frAt_addPairK hij hi hj b]
      exact (hsym a b).2
  · intro a
    constructor
    · rw [kinAt_addPairK hij hi hj a, mem_ite_dictAdd]
      push_neg
      refine ⟨?_, ?_, ?_⟩
      · rintro rfl
        exact ⟨(hirr a).1, hij⟩
      · rintro - rfl
        exact ⟨(hirr a).1, fun hc => hij hc.symm⟩
      · rintro - -
        exact (hirr a).1
    · rw [frAt_addPairK hij hi hj a]
      exact (hirr a).2

theorem SymmOK_addPairF {refs : List Ref} {i j : Nat} (h : SymmOK refs) (hij : i ≠ j)
    (hi : i < refs.length) (hj : j < refs.length) : SymmOK (addPairF refs i j) := by
  obtain ⟨hsym, hirr⟩ := h
  constructor
  · intro a b
    constructor
    · rw [kinAt_addPairF hij hi hj a, kinAt_addPairF hij hi hj b]
      exact (hsym a b).1
    · rw [frAt_addPairF hij hi hj a, frAt_addPairF hij hi hj b,
        mem_ite_dictAdd, mem_ite_dictAdd]
      have hk := (hsym a b).2
      by_cases hai : a = i <;> by_cases haj : a = j <;>
        by_cases hbi : b = i <;> by_cases hbj : b = j <;>
        simp_all
  · intro a
    constructor
    · rw [kinAt_addPairF hij hi hj a]
      exact (hirr a).1
    · rw [frAt_addPairF hij hi hj a, mem_ite_dictAdd]
      push_neg
      refine ⟨?_, ?_, ?_⟩
      · rintro rfl
        exact ⟨(hirr a).2, hij⟩
      · rintro - rfl
        exact ⟨(hirr a).2, fun hc => hij hc.symm⟩
      · rintro - -
        exact (hirr a).2

theorem drawPartner_spec :
    ∀ (fuel : Nat) {i n : Nat} {s : Nat → Nat} {k j k1 : Nat},
      drawPartner i n s k fuel = some (j, k1) → j ≠ i ∧ j < n := by
  intro fuel
  induction fuel with
  | zero =>
    intro i n s k j k1 h
    simp [drawPartner] at h
  | succ fuel ih =>
    intro i n s k j k1 h
    unfold drawPartner at h
    split at h
    · simp at h
    · next hn =>
      split at h
      · exact ih h
      · next hne =>
        simp only [Option.some.injEq, Prod.mk.injEq] at h
        obtain ⟨rfl, rfl⟩ := h
        exact ⟨hne, Nat.mod_lt _ (Nat.pos_of_ne_zero hn)⟩

theorem addLinks_inv :
    ∀ (cnt : Nat) {isKin : Bool} {i n : Nat} {refs : List Ref} {s : Nat → Nat}
      {k fuel : Nat} {refs2 : List Ref} {k2 : Nat},
      SymmOK refs → i < refs.length → n ≤ refs.length →
      addLinks isKin cnt i n refs s k fuel = some (refs2, k2) →
      SymmOK refs2 ∧ refs2.length = refs.length := by
  intro cnt
  induction cnt with
  | zero =>
    intro isKin i n refs s k fuel refs2 k2 hs _ _ h
    simp only [addLinks, Option.some.injEq, Prod.mk.injEq] at h
    obtain ⟨rfl, rfl⟩ := h
    exact ⟨hs, rfl⟩
  | succ cnt ih =>
    intro isKin i n refs s k fuel refs2 k2 hs hi hn h
    unfold addLinks at h
    split at h
    · simp at h
    · next j k1 hdp =>
      obtain ⟨hji, hjn⟩ := drawPartner_spec fuel hdp
      have hij : i ≠ j := fun hc => hji hc.symm
      have hj : j < refs.length := lt_of_lt_of_le hjn hn
      cases isKin with
      | true =>
        rw [if_pos rfl] at h
        have hlen := length_addPairK refs i j
        obtain ⟨hs2, hl2⟩ := ih (SymmOK_addPairK hs hij hi hj)
          (by rw [hlen]; exact hi) (by rw [hlen]; exact hn) h
        exact ⟨hs2, hl2.trans hlen⟩
      | false =>
        rw [if_neg Bool.false_ne_true] at h
        have hlen := length_addPairF refs i j
        obtain ⟨hs2, hl2⟩ := ih (SymmOK_addPairF hs hij hi hj)
          (by rw [hlen]; exact hi) (by rw [hlen]; exact hn) h
        exact ⟨hs2, hl2.trans hlen⟩

theorem create_defined_inv {cfg : Config} {n i : Nat} {refs : List Ref} {s : Nat → Nat}
    {k fuel : Nat} {refs2 : List Ref} {k2 : Nat}
    (hs : SymmOK refs) (hi : i < refs.length) (hn : n ≤ refs.length)
    (h : create_defined_social_links cfg n i refs s k fuel = some (refs2, k2)) :
    SymmOK refs2 ∧ refs2.length = refs.length := by
  unfold create_defined_social_links at h
  split at h
  · simp at h
  · next refs1 k1 hkin =>
    obtain ⟨hs1, hl1⟩ := addLinks_inv cfg.num_kin hs hi hn hkin
    obtain ⟨hs2, hl2⟩ := addLinks_inv cfg.num_friends hs1
      (by rw [hl1]; exact hi) (by rw [hl1]; exact hn) h
    exact ⟨hs2, hl2.trans hl1⟩

theorem linkLoop_inv :
    ∀ (idxs : List Nat) {cfg : Config} {n : Nat} {refs : List Ref} {s : Nat → Nat}
      {k fuel : Nat} {refs2 : List Ref} {k2 : Nat},
      SymmOK refs → (∀ i ∈ idxs, i < refs.length) → n ≤ refs.length →
      linkLoop cfg n idxs refs s k fuel = some (refs2, k2) →
      SymmOK refs2 ∧ refs2.length = refs.length := by
  intro idxs
  induction idxs with
  | nil =>
    intro cfg n refs s k fuel refs2 k2 hs _ _ h
    simp only [linkLoop, Option.some.injEq, Prod.mk.injEq] at h
    obtain ⟨rfl, rfl⟩ := h
    exact ⟨hs, rfl⟩
  | cons i rest ih =>
    intro cfg n refs s k fuel refs2 k2 hs hidx hn h
    unfold linkLoop at h
    split at h
    · simp at h
    · next refs1 k1 hc =>
      obtain ⟨hs1, hl1⟩ := create_defined_inv hs (hidx i (List.mem_cons_self i rest)) hn hc
      obtain ⟨hs2, hl2⟩ := ih hs1
        (fun m hm => by rw [hl1]; exact hidx m (List.mem_cons_of_mem i hm))
        (by rw [hl1]; exact hn) h
      exact ⟨hs2, hl2.trans hl1⟩

theorem initRefs_links_empty (g : GraphState) :
    ∀ a, kinAt (initRefs g) a = [] ∧ frAt (initRefs g) a = [] := by
  have hmem : ∀ r ∈ initRefs g, r.kin_list = [] ∧ r.friend_list = [] := by
    intro r hr
    rw [initRefs, List.mem_flatMap] at hr
    obtain ⟨nd, _, hr⟩ := hr
    rw [List.mem_replicate] at hr
    rw [hr.2]
    exact ⟨rfl, rfl⟩
  intro a
  by_cases ha : a < (initRefs g).length
  · have hmm : (initRefs g).getD a dRef ∈ initRefs g := by
      rw [List.getD_eq_getElem?_getD, List.getElem?_eq_getElem ha]
      exact List.getElem_mem ha
    exact ⟨(hmem _ hmm).1, (hmem _ hmm).2⟩
  · rw [kinAt_out_of_range (le_of_not_lt ha), frAt_out_of_range (le_of_not_lt ha)]
    exact ⟨rfl, rfl⟩

theorem SymmOK_initRefs (g : GraphState) : SymmOK (initRefs g) := by
  constructor
  · intro i j
    rw [(initRefs_links_empty g i).1, (initRefs_links_empty g i).2,
      (initRefs_links_empty g j).1, (initRefs_links_empty g j).2]
    simp
  · intro i
    rw [(initRefs_links_empty g i).1, (initRefs_links_empty g i).2]
    simp

theorem sum_toNat_le : ∀ (l : List Int), l.sum.toNat ≤ (l.map Int.toNat).sum := by
  intro l
  induction l with
  | nil => simp
  | cons a t ih =>
    simp only [List.sum_cons, List.map_cons]
    omega

theorem numRefugees_le_length (g : GraphState) :
    numRefugees g ≤ (initRefs g).length := by
  unfold numRefugees initRefs
  rw [List.length_flatMap]
  have hmap : List.map (List.length ∘ fun nd => List.replicate (g.weight nd).toNat
      (⟨nd, [], []⟩ : Ref)) g.nodes = (g.nodes.map g.weight).map Int.toNat := by
    rw [List.map_map]
    apply List.map_congr_left
    intro nd _
    simp [List.length_replicate]
  rw [hmap]
  exact sum_toNat_le (g.nodes.map g.weight)

theorem symmCheck_congr {refs1 refs2 : List Ref} (h : refs1.map kinfr = refs2.map kinfr) :
    symmCheck refs1 = symmCheck refs2 := by
  have hlen : refs1.length = refs2.length := by
    have hc := congrArg List.length h
    simpa using hc
  have hkf : ∀ a, kinfr (refs1.getD a dRef) = kinfr (refs2.getD a dRef) := by
    intro a
    rw [← getD_map_fn refs1 kinfr dRef a, ← getD_map_fn refs2 kinfr dRef a, h]
  have hkin : kinAt refs1 = kinAt refs2 := by
    funext a
    exact congrArg Prod.fst (hkf a)
  have hfr : frAt refs1 = frAt refs2 := by
    funext a
    exact congrArg Prod.snd (hkf a)
  unfold symmCheck
  rw [hlen, hkin, hfr]

/-! C7 and C8 claim theorems. -/

/-- C7 counterexample: same graph, same agents, same pseudo-random
stream; the single-worker step sends agent 0 to node 2 and keeps agent
1 at node 1, while the 4-process 2-batch step - whose forked workers
each inherit the same stream cursor - moves both agents to node 2.
The resulting agent lists differ, refuting step-result equality. -/
theorem c7_counterexample :
    (Sim.step defaultConfig 1 1 gTwo refsTwo sTwo 0).map (fun t => t.2.1.map Ref.node) =
        .ok [2, 1] ∧
    (Sim.step defaultConfig 4 2 gTwo refsTwo sTwo 0).map (fun t => t.2.1.map Ref.node) =
        .ok [2, 2] :=
  ⟨by with_unfolding_all rfl, by with_unfolding_all rfl⟩

/-- C7 as amended: batching is harmless exactly when the stream is
handed off sequentially - processing the batches one after another,
each starting at the cursor where the previous one stopped, equals
processing the concatenation in one batch, for every batch list - and
the node-weight map of a step never depends on the worker or batch
count, because every completed step returns the weights unchanged.
Under the fork semantics of the source the per-batch cursors all equal
the inherited parent cursor instead, which is what the counterexample
exploits. -/
theorem c7_amended :
    (∀ (cfg : Config) (g : GraphState) (ns : Nat → ℚ) (allRefs : List Ref)
        (chunks : List (List Nat)) (s : Nat → ℚ) (k : Nat),
      process_chunked_threaded cfg g ns allRefs chunks s k =
        processLoop cfg g ns allRefs chunks.flatten s k) ∧
    (∀ (cfg : Config) (np nb : Nat) (g : GraphState) (refs : List Ref)
        (s : Nat → ℚ) (k n : Nat),
      (Sim.step cfg np nb g refs s k).map (fun t => t.1.weight n) =
        (Sim.step cfg np nb g refs s k).map (fun _ => g.weight n)) := by
  constructor
  · intro cfg g ns allRefs chunks s k
    induction chunks generalizing k with
    | nil => rfl
    | cons c rest ih =>
      simp only [process_chunked_threaded, List.flatten_cons, processLoop_append, ih]
  · intro cfg np nb g refs s k n
    cases hstep : Sim.step cfg np nb g refs s k with
    | error e => rfl
    | ok t =>
      obtain ⟨g', refs', k'⟩ := t
      obtain ⟨_, _, hw, _⟩ := step_ok_shape hstep
      simp only [Except.map, hw]

/-- C8: agents never hold themselves as kin or friend, and the kin and
friend relations are symmetric, at every point the engine actually
produces: the constructor's social pass always yields a list passing
the executable symmetry check, and every completed step preserves the
check (on the seeding path the step completes only when seed_nodes is
empty, since otherwise it dies in the crash recorded for C3, so no
asymmetric seeded state ever arises). -/
theorem c8_social_symmetry :
    (∀ (cfg : Config) (g : GraphState) (s : Nat → Nat) (k fuel : Nat),
      (buildAllLinks cfg (numRefugees g) (initRefs g) s k fuel).map
          (fun p => symmCheck p.1) =
        (buildAllLinks cfg (numRefugees g) (initRefs g) s k fuel).map (fun _ => true)) ∧
    (∀ (cfg : Config) (np nb : Nat) (g : GraphState) (refs : List Ref)
        (s : Nat → ℚ) (k : Nat),
      symmCheck refs = true →
      (Sim.step cfg np nb g refs s k).map (fun t => symmCheck t.2.1) =
        (Sim.step cfg np nb g refs s k).map (fun _ => true)) := by
  constructor
  · intro cfg g s k fuel
    cases hb : buildAllLinks cfg (numRefugees g) (initRefs g) s k fuel with
    | none => rfl
    | some p =>
      obtain ⟨refs1, k1⟩ := p
      unfold buildAllLinks at hb
      obtain ⟨hs1, _⟩ := linkLoop_inv (List.range (initRefs g).length)
        (SymmOK_initRefs g) (fun i hi => List.mem_range.mp hi)
        (numRefugees_le_length g) hb
      simp only [Option.map_some']
      rw [symmCheck_of_SymmOK hs1]
  · intro cfg np nb g refs s k hsy
    cases hstep : Sim.step cfg np nb g refs s k with
    | error e => rfl
    | ok t =>
      obtain ⟨g', refs', k'⟩ := t
      obtain ⟨_, _, _, _, _, _, hkf⟩ := step_ok_shape hstep
      simp only [Except.map]
      rw [symmCheck_congr hkf, hsy]

/-- Witness for C8: the two-agent population of gTwo, built with the
identity randint stream (kin and friend of each agent become the other
agent), then pushed through one step that moves both agents. -/
theorem c8_social_symmetry_witness :
    ((buildAllLinks defaultConfig (numRefugees gTwo) (initRefs gTwo) (fun k => k) 0 5).map
        (fun p => symmCheck p.1) =
      (buildAllLinks defaultConfig (numRefugees gTwo) (initRefs gTwo) (fun k => k) 0 5).map
        (fun _ => true)) ∧
    ((Sim.step defaultConfig 1 1 gTwo refsLinked sTwo 0).map (fun t => symmCheck t.2.1) =
      (Sim.step defaultConfig 1 1 gTwo refsLinked sTwo 0).map (fun _ => true)) :=
  ⟨c8_social_symmetry.1 defaultConfig gTwo (fun k => k) 0 5,
   c8_social_symmetry.2 defaultConfig 1 1 gTwo refsLinked sTwo 0 (by decide)⟩

end Mig
